import Mathlib

/-!
Verification development for the PlcComS protocol client
(`plccoms.py` of the Tecomat Foxtrot Home Assistant integration).

The client is shallowly embedded: the value codec (`_parse_value`,
`_format_value`) is translated into pure functions over `List Char`
(Python strings), and the mutable client object (`PlcComSClient`) is
translated into explicit state passing over a `ClientState` record.
Python dictionaries become insertion-ordered association lists with
in-place update semantics, `asyncio.Future` objects become entries of a
future table indexed by numeric identifiers, and the wire is modelled by
the list of command strings the client has written.

Python floating point literals reaching `float()` through `_parse_value`
are finite decimal literals; their values are modelled exactly as
rational numbers.
-/

namespace PlcComS

/-- Tagged union of the dynamic values the client handles: strings,
booleans, integers, floating point numbers (modelled as the exact
rational a decimal literal denotes) and Python `None` (stored in the
variable cache by the LIST handler). -/
inductive PValue where
  | str : String → PValue
  | bool : Bool → PValue
  | int : Int → PValue
  | float : Rat → PValue
  | null : PValue
deriving DecidableEq

/-- Value of an ASCII decimal digit character. -/
def digitVal (c : Char) : Nat := c.toNat - 48

/-- Decimal value of a digit string, most significant digit first. -/
def digitsVal (cs : List Char) : Nat :=
  cs.foldl (fun a c => 10 * a + digitVal c) 0

/-- Python `str.strip()` restricted to ASCII whitespace: drop whitespace
from both ends. -/
def pyStrip (cs : List Char) : List Char :=
  ((cs.dropWhile Char.isWhitespace).reverse.dropWhile Char.isWhitespace).reverse

/-- Helper for `digitsU`: checks the tail of a digit group, where an
underscore must be immediately followed by a digit. -/
def digitsUAux : List Char → Bool
  | [] => true
  | c :: rest =>
    if c = '_' then
      match rest with
      | [] => false
      | d :: rest2 => d.isDigit && digitsUAux rest2
    else c.isDigit && digitsUAux rest

/-- Valid digit group for Python numeric parsing: nonempty, starts with a
digit, and single underscores may appear only between digits. -/
def digitsU : List Char → Bool
  | [] => false
  | c :: rest => c.isDigit && digitsUAux rest

/-- Remove the underscore digit separators of a Python numeric literal. -/
def stripUnders (cs : List Char) : List Char := cs.filter (fun c => c != '_')

/-- Value of a valid digit group (none when the group is invalid).
Models the digit-string core of Python `int()` on ASCII decimal digits. -/
def pyNatDigits (cs : List Char) : Option Nat :=
  if digitsU cs then some (digitsVal (stripUnders cs)) else none

/-- Model of Python `int(s)` on a stripped string: an optional sign
followed by a valid digit group. Inputs reaching this function come from
the CP1250 decoder, so only ASCII decimal digits occur. -/
def pyInt (cs : List Char) : Option Int :=
  if cs.head? = some '-' then (pyNatDigits (cs.drop 1)).map (fun m => -Int.ofNat m)
  else if cs.head? = some '+' then (pyNatDigits (cs.drop 1)).map (fun m => Int.ofNat m)
  else (pyNatDigits cs).map (fun m => Int.ofNat m)

/-- Exponent part of a Python float literal: optional sign and digits. -/
def pyExp (cs : List Char) : Option Int :=
  if cs.head? = some '-' then (pyNatDigits (cs.drop 1)).map (fun m => -Int.ofNat m)
  else if cs.head? = some '+' then (pyNatDigits (cs.drop 1)).map (fun m => Int.ofNat m)
  else (pyNatDigits cs).map (fun m => Int.ofNat m)

/-- Leading digit-or-underscore group of a float literal. -/
def digitGroup (cs : List Char) : List Char :=
  cs.takeWhile (fun c => c.isDigit || c == '_')

/-- A mantissa digit group is acceptable when absent or valid. -/
def groupOk (cs : List Char) : Bool := cs.isEmpty || digitsU cs

/-- Power of ten with an integer exponent, as an exact rational. -/
def ratPow10 (k : Int) : Rat :=
  if 0 ≤ k then ((10 ^ k.toNat : Nat) : Rat)
  else 1 / ((10 ^ (-k).toNat : Nat) : Rat)

/-- Model of Python `float(s)` on a stripped finite decimal literal:
optional sign, integer and fractional digit groups around an optional
point, optional exponent. The result is the exact rational the literal
denotes; the overflow-to-infinity behaviour of Python floats and the
dotless special forms `inf`/`nan` are not modelled — `_parse_value`
reaches `float()` only for payloads containing a point. -/
def pyFloat (cs : List Char) : Option Rat :=
  let sgn : Int := if cs.head? = some '-' then -1 else 1
  let rest :=
    if cs.head? = some '-' then cs.drop 1
    else if cs.head? = some '+' then cs.drop 1
    else cs
  let ip := digitGroup rest
  let rest1 := rest.drop ip.length
  let fp := if rest1.head? = some '.' then digitGroup (rest1.drop 1) else []
  let rest2 :=
    if rest1.head? = some '.' then (rest1.drop 1).drop (digitGroup (rest1.drop 1)).length
    else rest1
  if groupOk ip && groupOk fp && !(ip.isEmpty && fp.isEmpty) then
    match (if rest2.isEmpty then some (0 : Int)
           else if rest2.head? = some 'e' || rest2.head? = some 'E' then pyExp (rest2.drop 1)
           else none) with
    | some e =>
        some ((sgn : Rat) * (digitsVal (stripUnders (ip ++ fp)) : Rat) *
          ratPow10 (e - (stripUnders fp).length))
    | none => none
  else none

/-- Body of `_parse_value` on the already-stripped payload: in order,
a double-quoted string yields the unquoted content, a case-insensitive
`true`/`false` yields a boolean, a payload containing a point is given
to the float parse, any other payload to the integer parse, and a failed
numeric parse falls back to the (stripped) raw string. -/
def parseStripped (cs : List Char) : PValue :=
  if cs.head? = some '"' ∧ cs.getLast? = some '"' then
    PValue.str (String.mk ((cs.drop 1).dropLast))
  else if cs.map Char.toLower = "true".data then PValue.bool true
  else if cs.map Char.toLower = "false".data then PValue.bool false
  else if '.' ∈ cs then
    match pyFloat cs with
    | some q => PValue.float q
    | none => PValue.str (String.mk cs)
  else
    match pyInt cs with
    | some n => PValue.int n
    | none => PValue.str (String.mk cs)

/-- Shallow embedding of `PlcComSClient._parse_value`: strip the raw
payload, then apply the ordered parse rules of `parseStripped`. -/
def parseValueL (cs0 : List Char) : PValue := parseStripped (pyStrip cs0)

/-- String-typed wrapper of `parseValueL`. -/
def parse_value (s : String) : PValue := parseValueL s.data

/-- Decimal digits of a positive natural number, most significant first,
with an explicit fuel argument (the number itself suffices as fuel). -/
def natReprAux : Nat → Nat → List Char
  | 0, _ => []
  | fuel + 1, n =>
    if n = 0 then []
    else natReprAux fuel (n / 10) ++ [Nat.digitChar (n % 10)]

/-- Decimal representation of a natural number, as Python `str()` prints
it. -/
def natRepr (n : Nat) : List Char :=
  if n = 0 then ['0'] else natReprAux n n

/-- Decimal representation of an integer, as Python `str()` prints it. -/
def intReprL (n : Int) : List Char :=
  (if n < 0 then ['-'] else []) ++ natRepr n.natAbs

/-- Multiplicity of 2 in a natural number. -/
def twoVal (n : Nat) : Nat :=
  if h : 2 ≤ n ∧ n % 2 = 0 then twoVal (n / 2) + 1 else 0
decreasing_by omega

/-- Multiplicity of 5 in a natural number. -/
def fiveVal (n : Nat) : Nat :=
  if h : 5 ≤ n ∧ n % 5 = 0 then fiveVal (n / 5) + 1 else 0
decreasing_by omega

/-- Modelled rendering of a float value, mirroring Python `str()` on the
terminating decimals produced by `parseValueL`: minimal decimal
expansion, with a single `0` after the point for integral values. The
scientific-notation switch of Python for extreme magnitudes and the
(unreachable for parser-produced values) non-decimal-rational fallback
are not modelled exactly; no claim depends on float formatting. -/
def floatRepr (q : Rat) : List Char :=
  let k := max (twoVal q.den) (fiveVal q.den)
  let scaled := q * ((10 ^ k : Nat) : Rat)
  if scaled.den = 1 then
    let m := scaled.num.natAbs
    let sign : List Char := if q.num < 0 then ['-'] else []
    let ds := natRepr (m / 10 ^ k)
    let fs :=
      if k = 0 then ['0']
      else
        let raw := natRepr (m % 10 ^ k)
        List.replicate (k - raw.length) '0' ++ raw
    sign ++ ds ++ '.' :: fs
  else natRepr q.num.natAbs ++ '/' :: natRepr q.den

/-- Shallow embedding of `PlcComSClient._format_value`: booleans print
as `true`/`false`, strings are wrapped in double quotes, everything else
prints as its decimal text form (`str()`). -/
def formatValueL : PValue → List Char
  | PValue.bool b => if b then "true".data else "false".data
  | PValue.str s => '"' :: (s.data ++ ['"'])
  | PValue.int n => intReprL n
  | PValue.float q => floatRepr q
  | PValue.null => "None".data

/-- String-typed wrapper of `formatValueL`. -/
def format_value (v : PValue) : String := String.mk (formatValueL v)

/-! Association lists model Python dictionaries: lookup finds the first
binding, assignment updates an existing binding in place or appends a
new one, deletion removes the binding. -/

/-- Dictionary lookup (`d.get(k)` / `k in d`). -/
def lookupA {κ α : Type} [DecidableEq κ] : List (κ × α) → κ → Option α
  | [], _ => none
  | p :: rest, key => if p.1 = key then some p.2 else lookupA rest key

/-- Dictionary assignment (`d[k] = v`). -/
def setA {κ α : Type} [DecidableEq κ] : List (κ × α) → κ → α → List (κ × α)
  | [], key, v => [(key, v)]
  | p :: rest, key, v => if p.1 = key then (p.1, v) :: rest else p :: setA rest key v

/-- Dictionary deletion (`d.pop(k, None)`). -/
def removeA {κ α : Type} [DecidableEq κ] : List (κ × α) → κ → List (κ × α)
  | [], _ => []
  | p :: rest, key => if p.1 = key then rest else p :: removeA rest key

/-- Exception taxonomy of the client (`PlcComSConnectionError`,
`PlcComSProtocolError`). -/
inductive PlcError where
  | connectionError : String → PlcError
  | protocolError : String → PlcError
deriving DecidableEq

/-- State of one `asyncio.Future` held in the pending-response table:
unresolved, resolved with a value, failed with an exception, or
cancelled. -/
inductive FutureSt where
  | pending : FutureSt
  | resolved : PValue → FutureSt
  | failed : PlcError → FutureSt
  | cancelled : FutureSt
deriving DecidableEq

/-- State of a `PlcComSClient` instance. Futures are identified by
numeric ids in a future table; `pending` is `_pending_responses`
(correlation key to future id), `callbacks` is `_callbacks` (variable
name to callback ids in registration order), `globalCallbacks` is
`_global_callbacks`, `vars` is the `_variables` cache (named `vars` because `variables` is a reserved word in Lean), `listAcc`
is the `_var_list` accumulator attached to the future a `list_variables`
call registers under the `LIST` key, and `sent` is the sequence of
command lines written to the socket. -/
structure ClientState where
  connected : Bool
  reconnectEnabled : Bool
  reconnecting : Bool
  vars : List (String × PValue)
  callbacks : List (String × List Nat)
  globalCallbacks : List Nat
  futures : List (Nat × FutureSt)
  pending : List (String × Nat)
  listAcc : List (String × String)
  sent : List String
deriving DecidableEq

/-- Client with no connection, no cache, no callbacks and no pending
requests, as `__init__` leaves it (automatic reconnection enabled). -/
def emptyClient : ClientState :=
  { connected := false
    reconnectEnabled := true
    reconnecting := false
    vars := []
    callbacks := []
    globalCallbacks := []
    futures := []
    pending := []
    listAcc := []
    sent := [] }

/-- One callback invocation performed by the notification dispatcher:
which callback ran, with which arguments, and whether it raised (raised
callbacks are caught and logged). -/
structure Invocation where
  cb : Nat
  var : String
  value : PValue
  raised : Bool
deriving DecidableEq

/-- Per-variable callback list for a name (`self._callbacks[var_name]`
when the name is registered, nothing otherwise). -/
def perVarCbs (st : ClientState) (name : String) : List Nat :=
  match lookupA st.callbacks name with
  | some l => l
  | none => []

/-- Run one callback. The behaviour environment assigns each callback id
an optional error message; `some` means the callback raises. -/
def runCb (behavior : Nat → Option String) (c : Nat) : Except String Unit :=
  match behavior c with
  | some msg => Except.error msg
  | none => Except.ok ()

/-- Shallow embedding of `_notify_callbacks`: run every per-variable
callback for the name in registration order, then every global callback
in registration order; a raising callback is caught, its message logged,
and iteration continues. Returns the invocations performed and the log
of caught errors. -/
def notifyCallbacks (behavior : Nat → Option String) (st : ClientState)
    (name : String) (v : PValue) : List Invocation × List String :=
  let step := fun (acc : List Invocation × List String) (c : Nat) =>
    match runCb behavior c with
    | Except.ok _ => (acc.1 ++ [⟨c, name, v, false⟩], acc.2)
    | Except.error e => (acc.1 ++ [⟨c, name, v, true⟩], acc.2 ++ [e])
  st.globalCallbacks.foldl step ((perVarCbs st name).foldl step ([], []))

/-- Split a char list at the first occurrence of a separator
(`s.split(sep, 1)` when the separator occurs). -/
def splitFirst (cs : List Char) (sep : Char) : Option (List Char × List Char) :=
  match cs with
  | [] => none
  | c :: rest =>
    if c = sep then some ([], rest)
    else (splitFirst rest sep).map (fun p => (c :: p.1, p.2))

/-- Split a char list at the last occurrence of a separator
(`s.rsplit(sep, 1)` when the separator occurs). -/
def splitLast (cs : List Char) (sep : Char) : Option (List Char × List Char) :=
  match splitFirst cs.reverse sep with
  | some p => some (p.2.reverse, p.1.reverse)
  | none => none

/-- Python `s.rstrip("*")`: drop every trailing star. -/
def rstripStars (cs : List Char) : List Char :=
  (cs.reverse.dropWhile (fun c => c = '*')).reverse

/-- Shallow embedding of `_handle_get_response`: a payload without a
comma is ignored; otherwise parse the value, update the variable cache,
resolve the pending request keyed `GET:<name>` when one exists and its
future is unresolved, and notify the callbacks. -/
def handleGet (behavior : Nat → Option String) (params : List Char)
    (st : ClientState) : ClientState × List Invocation :=
  match splitFirst params ',' with
  | none => (st, [])
  | some p =>
    let name := String.mk p.1
    let v := parseValueL p.2
    let st1 := { st with vars := setA st.vars name v }
    let key := "GET:" ++ name
    let st2 :=
      match lookupA st1.pending key with
      | some fid =>
        let st3 := { st1 with pending := removeA st1.pending key }
        match lookupA st3.futures fid with
        | some FutureSt.pending =>
          { st3 with futures := setA st3.futures fid (FutureSt.resolved v) }
        | _ => st3
      | none => st1
    (st2, (notifyCallbacks behavior st2 name v).1)

/-- Shallow embedding of `_handle_diff_response`: a payload without a
comma is ignored; otherwise parse the value, update the variable cache
and notify the callbacks. The pending-response table is not consulted. -/
def handleDiff (behavior : Nat → Option String) (params : List Char)
    (st : ClientState) : ClientState × List Invocation :=
  match splitFirst params ',' with
  | none => (st, [])
  | some p =>
    let name := String.mk p.1
    let v := parseValueL p.2
    let st1 := { st with vars := setA st.vars name v }
    (st1, (notifyCallbacks behavior st1 name v).1)

/-- Parsing portion of `_handle_list_response`: strip the payload, drop
it when empty, otherwise split at the last comma into name and type and
strip trailing stars from the type; a bare name gets type `UNKNOWN`. -/
def listEntry (params : List Char) : Option (String × String) :=
  let ps := pyStrip params
  if ps = [] then none
  else
    match splitLast ps ',' with
    | some p => some (String.mk p.1, String.mk (rstripStars p.2))
    | none => some (String.mk ps, "UNKNOWN")

/-- Shallow embedding of `_handle_list_response`: record the variable as
existing (cache value `None`) when unknown, and append the (name, type)
entry to the accumulator of the in-flight `LIST` request when one is
pending. In the source the accumulator is the `_var_list` attribute that
`list_variables` attaches to the future it registers under the `LIST`
key; every future registered under that key carries it. -/
def handleList (params : List Char) (st : ClientState) : ClientState :=
  match listEntry params with
  | none => st
  | some e =>
    let st1 :=
      if lookupA st.vars e.1 = none then
        { st with vars := setA st.vars e.1 PValue.null }
      else st
    if (lookupA st1.pending "LIST").isSome then
      { st1 with listAcc := st1.listAcc ++ [e] }
    else st1

/-- Shallow embedding of the `ERROR` branch of `_process_response`: the
message is logged, and a pending request registered under the `error`
key (none of the public operations registers one) is failed with a
protocol error. -/
def handleError (params : List Char) (st : ClientState) : ClientState :=
  match lookupA st.pending "error" with
  | some fid =>
    let st1 := { st with pending := removeA st.pending "error" }
    match lookupA st1.futures fid with
    | some FutureSt.pending =>
      { st1 with
          futures := setA st1.futures fid
            (FutureSt.failed (PlcError.protocolError (String.mk params))) }
    | _ => st1
  | none => st

/-- Shallow embedding of `_handle_getinfo_response`: resolve the pending
`GETINFO` request with the raw payload string. -/
def handleGetInfo (params : List Char) (st : ClientState) : ClientState :=
  match lookupA st.pending "GETINFO" with
  | some fid =>
    let st1 := { st with pending := removeA st.pending "GETINFO" }
    match lookupA st1.futures fid with
    | some FutureSt.pending =>
      { st1 with
          futures := setA st1.futures fid
            (FutureSt.resolved (PValue.str (String.mk params))) }
    | _ => st1
  | none => st

/-- Uppercase a char list (`cmd.upper()` on the ASCII command names). -/
def toUpperL (cs : List Char) : List Char := cs.map Char.toUpper

/-- Shallow embedding of `_process_response`: a line without a colon is
logged and discarded; otherwise the text before the first colon,
uppercased, selects the handler; `WARNING` and unrecognized commands are
only logged. -/
def processResponse (behavior : Nat → Option String) (line : List Char)
    (st : ClientState) : ClientState × List Invocation :=
  match splitFirst line ':' with
  | none => (st, [])
  | some p =>
    let cmd := String.mk (toUpperL p.1)
    if cmd = "GET" then handleGet behavior p.2 st
    else if cmd = "DIFF" then handleDiff behavior p.2 st
    else if cmd = "LIST" then (handleList p.2 st, [])
    else if cmd = "ERROR" then (handleError p.2 st, [])
    else if cmd = "GETINFO" then (handleGetInfo p.2 st, [])
    else (st, [])

/-- Shallow embedding of `_send_command`: append the command line to the
wire when connected, raise `PlcComSConnectionError` otherwise. -/
def sendCommand (cmd : String) (st : ClientState) : Except PlcError ClientState :=
  if st.connected then Except.ok { st with sent := st.sent ++ [cmd] }
  else Except.error (PlcError.connectionError "Not connected to PLC")

/-- Shallow embedding of a successful `connect()`: a no-op when already
connected, otherwise mark the client connected and start the read loop.
Callbacks, the cache and pending requests are untouched, and no command
is sent. -/
def connectOk (st : ClientState) : ClientState :=
  if st.connected then st else { st with connected := true }

/-- Resolve every future referenced by the pending-response table that
is still unresolved to the target state `f` (the shared loop shape of
`disconnect` and `_handle_disconnect` over `_pending_responses`). -/
def resolvePendingFutures (f : FutureSt) (pending : List (String × Nat))
    (futures : List (Nat × FutureSt)) : List (Nat × FutureSt) :=
  pending.foldl
    (fun fs kv =>
      match lookupA fs kv.2 with
      | some FutureSt.pending => setA fs kv.2 f
      | _ => fs)
    futures

/-- Shallow embedding of `disconnect()`: clear the connected flag,
disable future reconnection, cancel the read and reconnect tasks, close
the socket, cancel (`future.cancel()`) every pending response future
that is not done, and clear the pending-response table. -/
def disconnect (st : ClientState) : ClientState :=
  { st with
    connected := false
    reconnectEnabled := false
    reconnecting := false
    futures := resolvePendingFutures FutureSt.cancelled st.pending st.futures
    pending := [] }

/-- Shallow embedding of `_handle_disconnect`: clear the connected flag,
close the socket, fail (`future.set_exception`) every pending response
future that is not done with `PlcComSConnectionError("Connection lost")`,
clear the pending-response table, and start the reconnect task when
automatic reconnection is enabled. -/
def handleDisconnect (st : ClientState) : ClientState :=
  { st with
    connected := false
    futures :=
      resolvePendingFutures (FutureSt.failed (PlcError.connectionError "Connection lost"))
        st.pending st.futures
    pending := []
    reconnecting := st.reconnectEnabled }

/-- Resubscription pass of `_reconnect_loop` after a successful
`connect()`: send `EN:<name>` for every variable name registered in the
callback table, in table order. -/
def resubscribeAll (st : ClientState) : ClientState :=
  st.callbacks.foldl (fun s kv => { s with sent := s.sent ++ ["EN:" ++ kv.1] }) st

/-- One successful iteration of `_reconnect_loop`: `connect()` succeeds
and monitoring is re-enabled for every subscribed variable. -/
def reconnectSuccessStep (st : ClientState) : ClientState :=
  resubscribeAll (connectOk st)

/-- Registration step of `get_variable`: create a fresh future and store
it in the pending-response table under `GET:<name>`, unconditionally
replacing any binding already present (`self._pending_responses[key] =
future`). -/
def getVariableRegister (st : ClientState) (name : String) (fid : Nat) : ClientState :=
  { st with
    futures := setA st.futures fid FutureSt.pending
    pending := setA st.pending ("GET:" ++ name) fid }

/-- Outcome of a `get_variable` call as seen by the caller. -/
inductive GetOutcome where
  | ok : PValue → GetOutcome
  | timeout : GetOutcome
  | error : PlcError → GetOutcome
deriving DecidableEq

/-- Execution of `get_variable(name)` along the path where the send
succeeds and `asyncio.wait_for` raises `TimeoutError`: register the
future, send `GET:<name>`, then pop the pending key in the timeout
handler, re-raise, and pop the key again in the `finally` block. -/
def getVariableTimeoutPath (st : ClientState) (name : String) (fid : Nat) :
    ClientState × GetOutcome :=
  let st1 := getVariableRegister st name fid
  let st2 := { st1 with sent := st1.sent ++ ["GET:" ++ name] }
  let st3 := { st2 with pending := removeA st2.pending ("GET:" ++ name) }
  let st4 := { st3 with pending := removeA st3.pending ("GET:" ++ name) }
  (st4, GetOutcome.timeout)

/-- Execution of `list_variables(timeout)` against a connection that
delivers the given lines during the fixed wait: register a future with
an empty `_var_list` accumulator under the `LIST` key, send `LIST:`,
process every line the read loop receives during the full timeout
window, return the accumulated entries and pop the `LIST` key. -/
def listVariablesRun (behavior : Nat → Option String) (st : ClientState)
    (fid : Nat) (lines : List (List Char)) : ClientState × List (String × String) :=
  let st1 :=
    { st with
      futures := setA st.futures fid FutureSt.pending
      pending := setA st.pending "LIST" fid
      listAcc := []
      sent := st.sent ++ ["LIST:"] }
  let st2 := lines.foldl (fun s l => (processResponse behavior l s).1) st1
  ({ st2 with pending := removeA st2.pending "LIST" }, st2.listAcc)

/-- Heap of dictionary objects, used to model Python reference semantics
for the `variables` property: cells are dictionaries, references are
cell indices. -/
structure HeapModel where
  cells : List (List (String × PValue))
deriving DecidableEq

/-- Read the dictionary a reference points to. -/
def cellsGet : List (List (String × PValue)) → Nat → List (String × PValue)
  | [], _ => []
  | c :: _, 0 => c
  | _ :: r, n + 1 => cellsGet r n

/-- Overwrite the dictionary a reference points to. -/
def cellsSet : List (List (String × PValue)) → Nat → List (String × PValue) →
    List (List (String × PValue))
  | [], _, _ => []
  | _ :: r, 0, d => d :: r
  | c :: r, n + 1, d => c :: cellsSet r n d

/-- Read a reference in a heap. -/
def readRef (h : HeapModel) (r : Nat) : List (String × PValue) := cellsGet h.cells r

/-- Write through a reference in a heap. -/
def writeRef (h : HeapModel) (r : Nat) (d : List (String × PValue)) : HeapModel :=
  ⟨cellsSet h.cells r d⟩

/-- Allocate a fresh object holding the given dictionary. -/
def allocRef (h : HeapModel) (d : List (String × PValue)) : HeapModel × Nat :=
  (⟨h.cells ++ [d]⟩, h.cells.length)

/-- Shallow embedding of the public `variables` property
(`return self._variables.copy()`): allocate a fresh dictionary holding a
copy of the contents of the internal cache object and return a reference
to the copy. -/
def variablesProp (h : HeapModel) (internal : Nat) : HeapModel × Nat :=
  allocRef h (readRef h internal)

/-! Concrete states used to evaluate the model at specific inputs. -/

/-- Client after a first `get_variable("X")` call registered future 1. -/
def c1StateA : ClientState := getVariableRegister emptyClient "X" 1

/-- Client after a second, overlapping `get_variable("X")` call
registered future 2 while future 1 was still pending. -/
def c1StateB : ClientState := getVariableRegister c1StateA "X" 2

/-- Connected client with one in-flight request: future 1 pending under
key `GET:X`. -/
def c2State : ClientState :=
  { emptyClient with
    connected := true
    futures := [(1, FutureSt.pending)]
    pending := [("GET:X", 1)] }

/-- Connected client with two per-variable callbacks on `T`, one global
callback, and a pending `GET:T` request held by future 4. -/
def c5State : ClientState :=
  { emptyClient with
    connected := true
    callbacks := [("T", [0, 1])]
    globalCallbacks := [2]
    futures := [(4, FutureSt.pending)]
    pending := [("GET:T", 4)] }

/-- Connected client with an unrelated pending request under `GET:Y`. -/
def c6State : ClientState :=
  { emptyClient with
    connected := true
    pending := [("GET:Y", 5)]
    futures := [(5, FutureSt.pending)] }

/-- Disconnected client with callbacks subscribed on variables `A` and
`B`, as left by `_handle_disconnect` before the reconnect loop runs. -/
def c7State : ClientState :=
  { emptyClient with reconnecting := true, callbacks := [("A", [0]), ("B", [1])] }

/-- Client state after reconnection re-enabled monitoring for `A` but
not yet for `B` (the send of `EN:A` awaited its drain). -/
def c7Mid : ClientState := { connectOk c7State with sent := ["EN:A"] }

/-- Heap with a single client-owned variable cache at reference 0. -/
def c10Heap : HeapModel := ⟨[[("T", PValue.int 1)]]⟩

/-! Association-list lemmas. -/

theorem lookupA_setA_self {κ α : Type} [DecidableEq κ] (l : List (κ × α)) (k : κ) (v : α) :
    lookupA (setA l k v) k = some v := by
  induction l with
  | nil => simp [setA, lookupA]
  | cons p rest ih =>
    by_cases h : p.1 = k
    · simp [setA, lookupA, h]
    · simp [setA, lookupA, h, ih]

theorem lookupA_setA_ne {κ α : Type} [DecidableEq κ] (l : List (κ × α)) (k k' : κ) (v : α)
    (h : k' ≠ k) : lookupA (setA l k v) k' = lookupA l k' := by
  have hne : ¬(k = k') := fun e => h e.symm
  induction l with
  | nil => simp [setA, lookupA, hne]
  | cons p rest ih =>
    by_cases hp : p.1 = k
    · simp [setA, lookupA, hp, hne]
    · by_cases hp' : p.1 = k'
      · simp [setA, lookupA, hp, hp', h]
      · simp [setA, lookupA, hp, hp', ih]

theorem lookupA_eq_none_of_not_mem {κ α : Type} [DecidableEq κ] (l : List (κ × α)) (k : κ)
    (h : k ∉ l.map Prod.fst) : lookupA l k = none := by
  induction l with
  | nil => rfl
  | cons p rest ih =>
    simp only [List.map_cons, List.mem_cons] at h
    push_neg at h
    have hne : ¬(p.1 = k) := fun e => h.1 e.symm
    simp [lookupA, hne, ih h.2]

theorem mem_of_lookupA_eq_some {κ α : Type} [DecidableEq κ] (l : List (κ × α)) (k : κ) (v : α)
    (h : lookupA l k = some v) : (k, v) ∈ l := by
  induction l with
  | nil => simp [lookupA] at h
  | cons p rest ih =>
    by_cases hp : p.1 = k
    · simp only [lookupA, if_pos hp] at h
      injection h with h2
      have hkv : (k, v) = p := by rw [← hp, ← h2]
      rw [hkv]
      exact List.mem_cons_self p rest
    · simp only [lookupA, if_neg hp] at h
      exact List.mem_cons_of_mem _ (ih h)

theorem keys_setA {κ α : Type} [DecidableEq κ] (l : List (κ × α)) (k : κ) (v : α) :
    (setA l k v).map Prod.fst =
      if k ∈ l.map Prod.fst then l.map Prod.fst else l.map Prod.fst ++ [k] := by
  induction l with
  | nil => simp [setA]
  | cons p rest ih =>
    by_cases hp : p.1 = k
    · simp [setA, hp]
    · have hne : ¬(k = p.1) := fun e => hp e.symm
      simp only [setA, if_neg hp, List.map_cons, ih]
      by_cases hm : k ∈ rest.map Prod.fst
      · simp [hm, hne]
      · simp [hm, hne]

theorem nodup_keys_setA {κ α : Type} [DecidableEq κ] (l : List (κ × α)) (k : κ) (v : α)
    (h : (l.map Prod.fst).Nodup) : ((setA l k v).map Prod.fst).Nodup := by
  rw [keys_setA]
  by_cases hm : k ∈ l.map Prod.fst
  · simpa [hm] using h
  · simp [hm, h, List.nodup_append]

theorem removeA_eq_of_lookup_none {κ α : Type} [DecidableEq κ] (l : List (κ × α)) (k : κ)
    (h : lookupA l k = none) : removeA l k = l := by
  induction l with
  | nil => rfl
  | cons p rest ih =>
    by_cases hp : p.1 = k
    · simp [lookupA, hp] at h
    · simp only [lookupA, if_neg hp] at h
      simp [removeA, hp, ih h]

theorem lookupA_removeA_self {κ α : Type} [DecidableEq κ] (l : List (κ × α)) (k : κ)
    (h : (l.map Prod.fst).Nodup) : lookupA (removeA l k) k = none := by
  induction l with
  | nil => rfl
  | cons p rest ih =>
    simp only [List.map_cons, List.nodup_cons] at h
    by_cases hp : p.1 = k
    · rw [removeA, if_pos hp]
      exact lookupA_eq_none_of_not_mem _ _ (hp ▸ h.1)
    · rw [removeA, if_neg hp, lookupA, if_neg hp]
      exact ih h.2

/-! Split, strip and star-stripping lemmas. -/

theorem splitFirst_append_cons (a b : List Char) (sep : Char) (h : sep ∉ a) :
    splitFirst (a ++ sep :: b) sep = some (a, b) := by
  induction a with
  | nil => simp [splitFirst]
  | cons c rest ih =>
    have hc : ¬(c = sep) := fun e => h (by simp [e])
    simp only [List.cons_append, splitFirst, List.append_eq, if_neg hc,
      ih (fun hm => h (List.mem_cons_of_mem _ hm))]
    rfl

theorem splitFirst_eq_none (cs : List Char) (sep : Char) (h : sep ∉ cs) :
    splitFirst cs sep = none := by
  induction cs with
  | nil => rfl
  | cons c rest ih =>
    have hc : ¬(c = sep) := fun e => h (by simp [e])
    simp only [splitFirst, if_neg hc, ih (fun hm => h (List.mem_cons_of_mem _ hm))]
    rfl

theorem splitLast_append_cons (a b : List Char) (sep : Char) (h : sep ∉ b) :
    splitLast (a ++ sep :: b) sep = some (a, b) := by
  unfold splitLast
  rw [show (a ++ sep :: b).reverse = b.reverse ++ sep :: a.reverse by simp]
  rw [splitFirst_append_cons _ _ _ (by simpa using h)]
  simp

theorem splitLast_eq_none (cs : List Char) (sep : Char) (h : sep ∉ cs) :
    splitLast cs sep = none := by
  unfold splitLast
  rw [splitFirst_eq_none _ _ (by simpa using h)]

theorem dropWhile_eq_self_of {p : Char → Bool} (l : List Char)
    (h : ∀ c ∈ l, p c = false) : l.dropWhile p = l := by
  cases l with
  | nil => rfl
  | cons c rest => simp [List.dropWhile_cons, h c (List.mem_cons_self c rest)]

theorem pyStrip_eq_self (cs : List Char) (h : ∀ c ∈ cs, c.isWhitespace = false) :
    pyStrip cs = cs := by
  unfold pyStrip
  rw [dropWhile_eq_self_of cs h,
    dropWhile_eq_self_of cs.reverse (fun c hc => h c (List.mem_reverse.mp hc)),
    List.reverse_reverse]

theorem rstripStars_append_star (cs : List Char) :
    rstripStars (cs ++ ['*']) = rstripStars cs := by
  unfold rstripStars
  simp [List.dropWhile_cons]

theorem string_mk_data (s : String) : String.mk s.data = s := rfl

/-! Decimal representation lemmas: the characters `natRepr` produces are
digits, and reading them back yields the original number. -/

theorem digitChar_class (d : Nat) (h : d < 10) :
    (Nat.digitChar d).isDigit = true ∧
    (Nat.digitChar d).isWhitespace = false ∧
    Nat.digitChar d ≠ '"' ∧
    Nat.digitChar d ≠ '.' ∧
    Char.toLower (Nat.digitChar d) = Nat.digitChar d ∧
    Nat.digitChar d ≠ 't' ∧
    Nat.digitChar d ≠ 'f' ∧
    Nat.digitChar d ≠ '-' ∧
    Nat.digitChar d ≠ '+' ∧
    Nat.digitChar d ≠ '_' ∧
    digitVal (Nat.digitChar d) = d := by
  interval_cases d <;> decide

theorem natReprAux_zero (fuel : Nat) : natReprAux fuel 0 = [] := by
  cases fuel <;> simp [natReprAux]

theorem digitsVal_append_singleton (cs : List Char) (c : Char) :
    digitsVal (cs ++ [c]) = 10 * digitsVal cs + digitVal c := by
  simp [digitsVal, List.foldl_append]

theorem natReprAux_spec : ∀ fuel n : Nat, 0 < n → n < 10 ^ fuel →
    (∀ c ∈ natReprAux fuel n, ∃ d, d < 10 ∧ c = Nat.digitChar d) ∧
    natReprAux fuel n ≠ [] ∧
    digitsVal (natReprAux fuel n) = n := by
  intro fuel
  induction fuel with
  | zero =>
    intro n h1 h2
    simp only [pow_zero] at h2
    omega
  | succ f ih =>
    intro n h1 h2
    have hne : ¬(n = 0) := by omega
    simp only [natReprAux, if_neg hne]
    refine ⟨?_, by simp, ?_⟩
    · intro c hc
      rcases List.mem_append.mp hc with hc | hc
      · rcases Nat.eq_zero_or_pos (n / 10) with h0 | hpos
        · rw [h0, natReprAux_zero] at hc
          cases hc
        · have hb : n / 10 < 10 ^ f := by
            apply (Nat.div_lt_iff_lt_mul (by norm_num)).mpr
            calc n < 10 ^ (f + 1) := h2
            _ = 10 ^ f * 10 := by ring
          exact (ih (n / 10) hpos hb).1 c hc
      · simp only [List.mem_singleton] at hc
        exact ⟨n % 10, Nat.mod_lt _ (by norm_num), hc⟩
    · rw [digitsVal_append_singleton, (digitChar_class (n % 10) (Nat.mod_lt _ (by norm_num))).2.2.2.2.2.2.2.2.2.2]
      rcases Nat.eq_zero_or_pos (n / 10) with h0 | hpos
      · rw [h0, natReprAux_zero]
        have : digitsVal ([] : List Char) = 0 := rfl
        rw [this]
        omega
      · have hb : n / 10 < 10 ^ f := by
          apply (Nat.div_lt_iff_lt_mul (by norm_num)).mpr
          calc n < 10 ^ (f + 1) := h2
          _ = 10 ^ f * 10 := by ring
        rw [(ih (n / 10) hpos hb).2.2]
        omega

theorem natRepr_spec (n : Nat) :
    (∀ c ∈ natRepr n, ∃ d, d < 10 ∧ c = Nat.digitChar d) ∧
    natRepr n ≠ [] ∧
    digitsVal (natRepr n) = n := by
  by_cases h : n = 0
  · subst h
    refine ⟨?_, by simp [natRepr], by decide⟩
    intro c hc
    rw [show natRepr 0 = ['0'] from rfl] at hc
    simp only [List.mem_singleton] at hc
    exact ⟨0, by norm_num, hc⟩
  · have h1 : 0 < n := Nat.pos_of_ne_zero h
    have h2 : n < 10 ^ n := Nat.lt_pow_self (by norm_num) n
    simp only [natRepr, if_neg h]
    exact natReprAux_spec n n h1 h2

theorem natRepr_digits (n : Nat) : ∀ c ∈ natRepr n, c.isDigit = true := by
  intro c hc
  obtain ⟨d, hd, rfl⟩ := (natRepr_spec n).1 c hc
  exact (digitChar_class d hd).1

theorem digitsUAux_of_digits (cs : List Char) (h : ∀ c ∈ cs, c.isDigit = true) :
    digitsUAux cs = true := by
  induction cs with
  | nil => rfl
  | cons c rest ih =>
    have hc := h c (List.mem_cons_self c rest)
    have hne : ¬(c = '_') := by
      intro e
      rw [e] at hc
      exact absurd hc (by decide)
    show digitsUAux (c :: rest) = true
    rw [digitsUAux.eq_def]
    simp only [if_neg hne, hc, ih (fun x hx => h x (List.mem_cons_of_mem _ hx))]
    rfl

theorem digitsU_of_digits (cs : List Char) (h : ∀ c ∈ cs, c.isDigit = true)
    (hne : cs ≠ []) : digitsU cs = true := by
  cases cs with
  | nil => exact absurd rfl hne
  | cons c rest =>
    simp [digitsU, h c (List.mem_cons_self c rest),
      digitsUAux_of_digits rest (fun x hx => h x (List.mem_cons_of_mem _ hx))]

theorem stripUnders_of_digits (cs : List Char) (h : ∀ c ∈ cs, c.isDigit = true) :
    stripUnders cs = cs := by
  unfold stripUnders
  apply List.filter_eq_self.mpr
  intro c hc
  have hd := h c hc
  have : c ≠ '_' := by
    intro e
    rw [e] at hd
    exact absurd hd (by decide)
  simpa using this

theorem pyNatDigits_natRepr (m : Nat) : pyNatDigits (natRepr m) = some m := by
  obtain ⟨_, hne, hval⟩ := natRepr_spec m
  have hd := natRepr_digits m
  unfold pyNatDigits
  rw [if_pos (by rw [digitsU_of_digits _ hd hne]), stripUnders_of_digits _ hd, hval]

theorem natRepr_head_facts (m : Nat) :
    ∃ c rest, natRepr m = c :: rest ∧ c.isDigit = true := by
  obtain ⟨_, hne, _⟩ := natRepr_spec m
  obtain ⟨c, rest, hD⟩ := List.exists_cons_of_ne_nil hne
  exact ⟨c, rest, hD, natRepr_digits m c (hD ▸ List.mem_cons_self c rest)⟩

theorem natRepr_char_all (m : Nat) : ∀ c ∈ natRepr m,
    c.isDigit = true ∧ c.isWhitespace = false ∧ c ≠ '"' ∧ c ≠ '.' ∧
    Char.toLower c = c ∧ c ≠ 't' ∧ c ≠ 'f' ∧ c ≠ '-' ∧ c ≠ '+' := by
  intro c hc
  obtain ⟨d, hd, rfl⟩ := (natRepr_spec m).1 c hc
  obtain ⟨a1, a2, a3, a4, a5, a6, a7, a8, a9, _, _⟩ := digitChar_class d hd
  exact ⟨a1, a2, a3, a4, a5, a6, a7, a8, a9⟩

theorem map_toLower_ne_head (c0 : Char) (rest : List Char) (t : Char) (ts : List Char)
    (h1 : Char.toLower c0 ≠ t) : (c0 :: rest).map Char.toLower ≠ t :: ts := by
  intro h
  simp only [List.map_cons, List.cons.injEq] at h
  exact h1 h.1

theorem parseValueL_intReprL (n : Int) : parseValueL (intReprL n) = PValue.int n := by
  by_cases hneg : n < 0
  · have hrepr : intReprL n = '-' :: natRepr n.natAbs := by
      simp [intReprL, hneg]
    have hfacts := natRepr_char_all n.natAbs
    have hstrip : pyStrip ('-' :: natRepr n.natAbs) = '-' :: natRepr n.natAbs := by
      apply pyStrip_eq_self
      intro c hc
      rcases List.mem_cons.mp hc with rfl | hc
      · decide
      · exact (hfacts c hc).2.1
    rw [hrepr, parseValueL, hstrip, parseStripped]
    rw [if_neg (by
      rintro ⟨h1, _⟩
      simp only [List.head?_cons, Option.some.injEq] at h1
      exact absurd h1 (by decide))]
    rw [if_neg (by
      rw [show "true".data = 't' :: ['r', 'u', 'e'] from rfl]
      exact map_toLower_ne_head _ _ _ _ (by decide))]
    rw [if_neg (by
      rw [show "false".data = 'f' :: ['a', 'l', 's', 'e'] from rfl]
      exact map_toLower_ne_head _ _ _ _ (by decide))]
    rw [if_neg (by
      intro hdot
      rcases List.mem_cons.mp hdot with h | h
      · exact absurd h.symm (by decide)
      · exact absurd rfl ((hfacts '.' h).2.2.2.1))]
    have hpy : pyInt ('-' :: natRepr n.natAbs) = some (-(n.natAbs : Int)) := by
      rw [pyInt, if_pos (by rfl)]
      rw [show ('-' :: natRepr n.natAbs).drop 1 = natRepr n.natAbs from rfl]
      rw [pyNatDigits_natRepr]
      rfl
    rw [hpy]
    have : -((n.natAbs : Nat) : Int) = n := by omega
    rw [this]
  · have hrepr : intReprL n = natRepr n.natAbs := by
      simp [intReprL, hneg]
    obtain ⟨c0, rest, hD, hc0d⟩ := natRepr_head_facts n.natAbs
    have hfacts := natRepr_char_all n.natAbs
    have hc0 := hfacts c0 (hD ▸ List.mem_cons_self c0 rest)
    have hstrip : pyStrip (natRepr n.natAbs) = natRepr n.natAbs :=
      pyStrip_eq_self _ (fun c hc => (hfacts c hc).2.1)
    rw [hrepr, parseValueL, hstrip, hD, parseStripped]
    rw [if_neg (by
      rintro ⟨h1, _⟩
      simp only [List.head?_cons, Option.some.injEq] at h1
      exact hc0.2.2.1 h1)]
    rw [if_neg (by
      rw [show "true".data = 't' :: ['r', 'u', 'e'] from rfl]
      exact map_toLower_ne_head _ _ _ _ (by rw [hc0.2.2.2.2.1]; exact hc0.2.2.2.2.2.1))]
    rw [if_neg (by
      rw [show "false".data = 'f' :: ['a', 'l', 's', 'e'] from rfl]
      exact map_toLower_ne_head _ _ _ _ (by rw [hc0.2.2.2.2.1]; exact hc0.2.2.2.2.2.2.1))]
    rw [if_neg (by
      intro hdot
      exact absurd rfl ((hfacts '.' (hD ▸ hdot)).2.2.2.1))]
    have hpy : pyInt (c0 :: rest) = some ((n.natAbs : Nat) : Int) := by
      rw [pyInt]
      rw [if_neg (by
        simp only [List.head?_cons, Option.some.injEq]
        exact hc0.2.2.2.2.2.2.2.1)]
      rw [if_neg (by
        simp only [List.head?_cons, Option.some.injEq]
        exact hc0.2.2.2.2.2.2.2.2)]
      rw [← hD, pyNatDigits_natRepr]
      rfl
    rw [hpy]
    have : ((n.natAbs : Nat) : Int) = n := by omega
    rw [this]


/-! Fold lemmas for the pending-future resolution loop shared by
`disconnect` and `_handle_disconnect`. -/

theorem resolvePendingFutures_cons (f : FutureSt) (kv : String × Nat)
    (rest : List (String × Nat)) (fs : List (Nat × FutureSt)) :
    resolvePendingFutures f (kv :: rest) fs =
      resolvePendingFutures f rest
        (match lookupA fs kv.2 with
         | some FutureSt.pending => setA fs kv.2 f
         | _ => fs) := rfl

theorem resolvePendingFutures_preserve (f : FutureSt) (hf : f ≠ FutureSt.pending)
    (l : List (String × Nat)) (fs : List (Nat × FutureSt)) (fid : Nat)
    (h : lookupA fs fid = some f) :
    lookupA (resolvePendingFutures f l fs) fid = some f := by
  induction l generalizing fs with
  | nil => exact h
  | cons kv rest ih =>
    rw [resolvePendingFutures_cons]
    by_cases hj : kv.2 = fid
    · rw [hj, h]
      cases f with
      | pending => exact absurd rfl hf
      | resolved v => exact ih _ h
      | failed e => exact ih _ h
      | cancelled => exact ih _ h
    · cases hv : lookupA fs kv.2 with
      | none => exact ih _ h
      | some g =>
        cases g with
        | pending =>
          apply ih
          rw [lookupA_setA_ne _ _ _ _ (fun e => hj e.symm)]
          exact h
        | resolved v => exact ih _ h
        | failed e => exact ih _ h
        | cancelled => exact ih _ h

theorem resolvePendingFutures_mem (f : FutureSt) (hf : f ≠ FutureSt.pending)
    (l : List (String × Nat)) (fs : List (Nat × FutureSt)) (fid : Nat) (k : String)
    (hm : (k, fid) ∈ l) (h : lookupA fs fid = some FutureSt.pending) :
    lookupA (resolvePendingFutures f l fs) fid = some f := by
  induction l generalizing fs with
  | nil => cases hm
  | cons kv rest ih =>
    rw [resolvePendingFutures_cons]
    by_cases hj : kv.2 = fid
    · rw [hj, h]
      exact resolvePendingFutures_preserve f hf rest _ _ (lookupA_setA_self _ _ _)
    · have hm2 : (k, fid) ∈ rest := by
        rcases List.mem_cons.mp hm with he | he
        · exact absurd (congrArg Prod.snd he).symm hj
        · exact he
      cases hv : lookupA fs kv.2 with
      | none => exact ih _ hm2 h
      | some g =>
        cases g with
        | pending =>
          apply ih _ hm2
          rw [lookupA_setA_ne _ _ _ _ (fun e => hj e.symm)]
          exact h
        | resolved v => exact ih _ hm2 h
        | failed e => exact ih _ hm2 h
        | cancelled => exact ih _ hm2 h

/-! Fold lemma for the notification dispatcher. -/

theorem notifyFold (behavior : Nat → Option String) (name : String) (v : PValue)
    (l : List Nat) (acc : List Invocation × List String) :
    l.foldl
      (fun acc c =>
        match runCb behavior c with
        | Except.ok _ => (acc.1 ++ [⟨c, name, v, false⟩], acc.2)
        | Except.error e => (acc.1 ++ [⟨c, name, v, true⟩], acc.2 ++ [e])) acc =
    (acc.1 ++ l.map (fun c => ⟨c, name, v, (behavior c).isSome⟩),
     acc.2 ++ l.filterMap behavior) := by
  induction l generalizing acc with
  | nil => simp
  | cons c rest ih =>
    rw [List.foldl_cons, ih]
    cases hb : behavior c with
    | none => simp [runCb, hb, List.filterMap_cons]
    | some e => simp [runCb, hb, List.filterMap_cons]

theorem notifyCallbacks_spec (behavior : Nat → Option String) (st : ClientState)
    (name : String) (v : PValue) :
    notifyCallbacks behavior st name v =
      ((perVarCbs st name ++ st.globalCallbacks).map
        (fun c => ⟨c, name, v, (behavior c).isSome⟩),
       (perVarCbs st name ++ st.globalCallbacks).filterMap behavior) := by
  rw [notifyCallbacks, notifyFold, notifyFold]
  simp

/-! Reconnection and resubscription lemmas. -/

theorem resubscribeFold (l : List (String × List Nat)) (s : ClientState) :
    (l.foldl (fun s kv => { s with sent := s.sent ++ ["EN:" ++ kv.1] }) s).sent =
      s.sent ++ l.map (fun kv => "EN:" ++ kv.1) ∧
    (l.foldl (fun s kv => { s with sent := s.sent ++ ["EN:" ++ kv.1] }) s).callbacks =
      s.callbacks ∧
    (l.foldl (fun s kv => { s with sent := s.sent ++ ["EN:" ++ kv.1] }) s).connected =
      s.connected := by
  induction l generalizing s with
  | nil => simp
  | cons kv rest ih =>
    rw [List.foldl_cons]
    obtain ⟨h1, h2, h3⟩ := ih { s with sent := s.sent ++ ["EN:" ++ kv.1] }
    refine ⟨?_, h2, h3⟩
    rw [h1]
    simp

/-! Reduction lemmas for `processResponse` on lines with a concrete
command prefix, and accumulation lemmas for the LIST handler. -/

theorem processResponse_GET (behavior : Nat → Option String) (p : List Char)
    (st : ClientState) :
    processResponse behavior ('G' :: 'E' :: 'T' :: ':' :: p) st = handleGet behavior p st := by
  rw [processResponse,
    show ('G' :: 'E' :: 'T' :: ':' :: p) = ['G', 'E', 'T'] ++ ':' :: p from rfl,
    splitFirst_append_cons _ _ _ (by decide)]
  rfl

theorem processResponse_DIFF (behavior : Nat → Option String) (p : List Char)
    (st : ClientState) :
    processResponse behavior ('D' :: 'I' :: 'F' :: 'F' :: ':' :: p) st =
      handleDiff behavior p st := by
  rw [processResponse,
    show ('D' :: 'I' :: 'F' :: 'F' :: ':' :: p) = ['D', 'I', 'F', 'F'] ++ ':' :: p from rfl,
    splitFirst_append_cons _ _ _ (by decide)]
  rfl

theorem processResponse_LIST (behavior : Nat → Option String) (p : List Char)
    (st : ClientState) :
    processResponse behavior ('L' :: 'I' :: 'S' :: 'T' :: ':' :: p) st =
      (handleList p st, []) := by
  rw [processResponse,
    show ('L' :: 'I' :: 'S' :: 'T' :: ':' :: p) = ['L', 'I', 'S', 'T'] ++ ':' :: p from rfl,
    splitFirst_append_cons _ _ _ (by decide)]
  rfl

theorem handleList_pending (p : List Char) (st : ClientState) :
    (handleList p st).pending = st.pending := by
  rw [handleList]
  cases listEntry p with
  | none => rfl
  | some e =>
    dsimp only
    by_cases h1 : lookupA st.vars e.1 = none
    · rw [if_pos h1]
      by_cases h2 : (lookupA st.pending "LIST").isSome = true
      · rw [if_pos h2]
      · rw [if_neg h2]
    · rw [if_neg h1]
      by_cases h2 : (lookupA st.pending "LIST").isSome = true
      · rw [if_pos h2]
      · rw [if_neg h2]

theorem handleList_acc (p : List Char) (st : ClientState)
    (h : (lookupA st.pending "LIST").isSome = true) :
    (handleList p st).listAcc = st.listAcc ++ (listEntry p).toList := by
  rw [handleList]
  cases listEntry p with
  | none => simp
  | some e =>
    dsimp only
    by_cases h1 : lookupA st.vars e.1 = none
    · rw [if_pos h1, if_pos h]
      simp
    · rw [if_neg h1, if_pos h]
      simp

theorem listFold_acc (behavior : Nat → Option String) (payloads : List (List Char))
    (st : ClientState) (h : (lookupA st.pending "LIST").isSome = true) :
    (payloads.foldl
        (fun s pl => (processResponse behavior ('L' :: 'I' :: 'S' :: 'T' :: ':' :: pl) s).1)
        st).listAcc =
      st.listAcc ++ payloads.filterMap listEntry ∧
    (payloads.foldl
        (fun s pl => (processResponse behavior ('L' :: 'I' :: 'S' :: 'T' :: ':' :: pl) s).1)
        st).pending = st.pending := by
  induction payloads generalizing st with
  | nil => simp
  | cons pl rest ih =>
    rw [List.foldl_cons]
    have hstep : (processResponse behavior ('L' :: 'I' :: 'S' :: 'T' :: ':' :: pl) st).1 =
        handleList pl st := by rw [processResponse_LIST]
    rw [hstep]
    have hpend : (handleList pl st).pending = st.pending := handleList_pending pl st
    obtain ⟨h1, h2⟩ := ih (handleList pl st) (by rw [hpend]; exact h)
    constructor
    · rw [h1, handleList_acc pl st h, List.filterMap_cons]
      cases listEntry pl <;> simp
    · rw [h2, hpend]

/-! Heap-cell lemmas for the copy semantics of the `variables`
property. -/

theorem cellsGet_append_left (l l2 : List (List (String × PValue))) (i : Nat)
    (h : i < l.length) : cellsGet (l ++ l2) i = cellsGet l i := by
  induction l generalizing i with
  | nil => simp at h
  | cons c rest ih =>
    cases i with
    | zero => rfl
    | succ j =>
      simp only [List.length_cons, Nat.succ_lt_succ_iff] at h
      exact ih j h

theorem cellsGet_cellsSet_ne (l : List (List (String × PValue))) (i j : Nat)
    (d : List (String × PValue)) (h : i ≠ j) :
    cellsGet (cellsSet l j d) i = cellsGet l i := by
  induction l generalizing i j with
  | nil => rfl
  | cons c rest ih =>
    cases j with
    | zero =>
      cases i with
      | zero => exact absurd rfl h
      | succ i2 => rfl
    | succ j2 =>
      cases i with
      | zero => rfl
      | succ i2 => exact ih i2 j2 (fun e => h (by rw [e]))

/-! Handler specification lemmas for well-formed GET/DIFF payloads. -/

theorem handleDiff_spec (behavior : Nat → Option String) (st : ClientState)
    (name : String) (raw : List Char) (hn : ¬ ',' ∈ name.data) :
    handleDiff behavior (name.data ++ ',' :: raw) st =
      ({ st with vars := setA st.vars name (parseValueL raw) },
       (perVarCbs st name ++ st.globalCallbacks).map
         (fun c => ⟨c, name, parseValueL raw, (behavior c).isSome⟩)) := by
  simp only [handleDiff, splitFirst_append_cons _ _ _ hn, string_mk_data,
    notifyCallbacks_spec]
  rfl

theorem handleGet_spec (behavior : Nat → Option String) (st : ClientState)
    (name : String) (raw : List Char) (fid : Nat) (hn : ¬ ',' ∈ name.data)
    (hp : (st.pending.map Prod.fst).Nodup)
    (hpend : lookupA st.pending ("GET:" ++ name) = some fid)
    (hfut : lookupA st.futures fid = some FutureSt.pending) :
    lookupA (handleGet behavior (name.data ++ ',' :: raw) st).1.futures fid =
      some (FutureSt.resolved (parseValueL raw)) ∧
    lookupA (handleGet behavior (name.data ++ ',' :: raw) st).1.pending
      ("GET:" ++ name) = none := by
  simp only [handleGet, splitFirst_append_cons _ _ _ hn, string_mk_data]
  rw [hpend]
  simp only
  rw [hfut]
  simp only
  exact ⟨lookupA_setA_self _ _ _, lookupA_removeA_self _ _ hp⟩

/-! Claim theorems. -/

/-- C1: the specification requires at most one pending request per
correlation key — a second concurrent `get_variable` for the same key
must be serialized or rejected, never silently overwriting. The code
instead assigns `self._pending_responses[key] = future` unconditionally:
evaluating the registration step at two overlapping `get_variable("X")`
calls shows the second future replaces the first in the table, leaving
the first future pending but unreachable (no key references it), so the
first call's result slot is silently replaced. -/
theorem spec_c1_pending_overwritten :
    lookupA c1StateA.pending "GET:X" = some 1 ∧
    lookupA c1StateB.pending "GET:X" = some 2 ∧
    c1StateB.pending = [("GET:X", 2)] ∧
    lookupA c1StateB.futures 1 = some FutureSt.pending := by
  decide

/-- C2 counterexample: at the concrete state `c2State` (future 1 pending
under `GET:X`), `disconnect()` cancels the future — it does not fail it
with a ConnectionError — refuting the claim that `disconnect()` fails
every pending request with ConnectionError. -/
theorem spec_c2_counterexample :
    (disconnect c2State).futures = [(1, FutureSt.cancelled)] ∧
    (disconnect c2State).futures ≠
      [(1, FutureSt.failed (PlcError.connectionError "Connection lost"))] ∧
    (disconnect c2State).pending = [] := by
  decide

/-- C2 (amended): `disconnect()` resolves every pending request's wait by
cancelling its future (releasing the waiting caller with a cancellation,
not leaving it unresolved) and clears the pending table; it is unexpected
connection loss (`_handle_disconnect`) that fails every pending request
with `PlcComSConnectionError("Connection lost")`. -/
theorem spec_c2_amended (st : ClientState) (k : String) (fid : Nat)
    (hk : lookupA st.pending k = some fid)
    (hf : lookupA st.futures fid = some FutureSt.pending) :
    lookupA (disconnect st).futures fid = some FutureSt.cancelled ∧
    (disconnect st).pending = [] ∧
    (disconnect st).connected = false ∧
    (disconnect st).reconnectEnabled = false ∧
    lookupA (handleDisconnect st).futures fid =
      some (FutureSt.failed (PlcError.connectionError "Connection lost")) ∧
    (handleDisconnect st).pending = [] := by
  refine ⟨?_, rfl, rfl, rfl, ?_, rfl⟩
  · exact resolvePendingFutures_mem _ (by decide) _ _ _ k
      (mem_of_lookupA_eq_some _ _ _ hk) hf
  · exact resolvePendingFutures_mem _ (by decide) _ _ _ k
      (mem_of_lookupA_eq_some _ _ _ hk) hf

/-- Witness for the amended C2 theorem at the concrete state `c2State`. -/
theorem spec_c2_amended_witness :
    (lookupA c2State.pending "GET:X" = some 1 ∧
     lookupA c2State.futures 1 = some FutureSt.pending) ∧
    (lookupA (disconnect c2State).futures 1 = some FutureSt.cancelled ∧
     (disconnect c2State).pending = [] ∧
     (disconnect c2State).connected = false ∧
     (disconnect c2State).reconnectEnabled = false ∧
     lookupA (handleDisconnect c2State).futures 1 =
       some (FutureSt.failed (PlcError.connectionError "Connection lost")) ∧
     (handleDisconnect c2State).pending = []) :=
  ⟨⟨by decide, by decide⟩, spec_c2_amended c2State "GET:X" 1 (by decide) (by decide)⟩

/-- C6: a `get_variable` call whose wait times out signals the timeout to
the caller and removes its pending entry — no residual entry remains
under the key `GET:<name>` (the timeout handler pops the key and the
`finally` block pops it again). -/
theorem spec_c6_timeout_cleanup (st : ClientState) (name : String) (fid : Nat)
    (h : (st.pending.map Prod.fst).Nodup) :
    (getVariableTimeoutPath st name fid).2 = GetOutcome.timeout ∧
    lookupA (getVariableTimeoutPath st name fid).1.pending ("GET:" ++ name) = none := by
  refine ⟨rfl, ?_⟩
  have h1 : ((setA st.pending ("GET:" ++ name) fid).map Prod.fst).Nodup :=
    nodup_keys_setA _ _ _ h
  have h2 : lookupA
      (removeA (setA st.pending ("GET:" ++ name) fid) ("GET:" ++ name))
      ("GET:" ++ name) = none :=
    lookupA_removeA_self _ _ h1
  show lookupA
      (removeA (removeA (setA st.pending ("GET:" ++ name) fid) ("GET:" ++ name))
        ("GET:" ++ name)) ("GET:" ++ name) = none
  rw [removeA_eq_of_lookup_none _ _ h2]
  exact h2

/-- Witness for C6 at the concrete state `c6State`. -/
theorem spec_c6_timeout_cleanup_witness :
    (c6State.pending.map Prod.fst).Nodup ∧
    ((getVariableTimeoutPath c6State "X" 7).2 = GetOutcome.timeout ∧
     lookupA (getVariableTimeoutPath c6State "X" 7).1.pending ("GET:" ++ "X") = none) :=
  ⟨by decide, spec_c6_timeout_cleanup c6State "X" 7 (by decide)⟩

/-- C7 counterexample: with variables `A` and `B` subscribed, `connect()`
itself sets the connected flag before `_reconnect_loop` re-issues any
`EN:` command, and each `EN:` send suspends at its drain; at the
intermediate state `c7Mid`, where only `EN:A` has been re-sent, the
client is connected and accepts a new `GET:X` command although `EN:B`
has not been sent — refuting the claim that `EN:A` and `EN:B` are
re-issued before any new GET/SET is accepted as connected. -/
theorem spec_c7_counterexample :
    (connectOk c7State).connected = true ∧
    (connectOk c7State).sent = [] ∧
    sendCommand "GET:X" (connectOk c7State) =
      Except.ok { connectOk c7State with sent := ["GET:X"] } ∧
    sendCommand "GET:X" c7Mid = Except.ok { c7Mid with sent := ["EN:A", "GET:X"] } ∧
    ¬ "EN:B" ∈ c7Mid.sent := by
  exact ⟨rfl, rfl, rfl, rfl, by decide⟩

/-- C7 (amended): after an unexpected disconnect with automatic
reconnection enabled, each successful reconnect iteration re-issues
`EN:<name>` for every variable name currently a key of the
SubscriptionTable (in table order) and preserves the callbacks
client-side; the connected flag, however, is set by `connect()` before
the re-issues, so the EN commands are not guaranteed to precede newly
accepted GET/SET commands. -/
theorem spec_c7_resubscribe (st : ClientState) (h : st.connected = false) :
    (reconnectSuccessStep st).connected = true ∧
    (reconnectSuccessStep st).callbacks = st.callbacks ∧
    (reconnectSuccessStep st).sent =
      st.sent ++ st.callbacks.map (fun kv => "EN:" ++ kv.1) := by
  have hneg : ¬(st.connected = true) := by rw [h]; exact fun e => nomatch e
  have hc : (connectOk st).connected = true := by
    rw [connectOk, if_neg hneg]
  have hcb : (connectOk st).callbacks = st.callbacks := by
    rw [connectOk, if_neg hneg]
  have hsent : (connectOk st).sent = st.sent := by
    rw [connectOk, if_neg hneg]
  obtain ⟨h1, h2, h3⟩ := resubscribeFold (connectOk st).callbacks (connectOk st)
  refine ⟨?_, ?_, ?_⟩
  · rw [reconnectSuccessStep, resubscribeAll, h3, hc]
  · rw [reconnectSuccessStep, resubscribeAll, h2, hcb]
  · rw [reconnectSuccessStep, resubscribeAll, h1, hsent, hcb]

/-- Witness for the amended C7 theorem at the concrete state `c7State`. -/
theorem spec_c7_resubscribe_witness :
    c7State.connected = false ∧
    ((reconnectSuccessStep c7State).connected = true ∧
     (reconnectSuccessStep c7State).callbacks = c7State.callbacks ∧
     (reconnectSuccessStep c7State).sent =
       c7State.sent ++ c7State.callbacks.map (fun kv => "EN:" ++ kv.1)) :=
  ⟨rfl, spec_c7_resubscribe c7State rfl⟩

/-- C8: on a value update the dispatcher runs every per-variable callback
for the name in registration order, then every global callback in
registration order, each with the updated name and value; a raising
callback is recorded as raised and its message logged, and it neither
prevents the remaining callbacks from running (the invocation list is
always the full registered list) nor propagates (the dispatcher returns
normally for every behaviour environment). -/
theorem spec_c8_dispatch (behavior : Nat → Option String) (st : ClientState)
    (name : String) (v : PValue) :
    (notifyCallbacks behavior st name v).1 =
      (perVarCbs st name ++ st.globalCallbacks).map
        (fun c => ⟨c, name, v, (behavior c).isSome⟩) ∧
    (notifyCallbacks behavior st name v).2 =
      (perVarCbs st name ++ st.globalCallbacks).filterMap behavior := by
  rw [notifyCallbacks_spec]
  exact ⟨rfl, rfl⟩

/-- C10: reading the public `variables` property returns a copy of the
variable cache — for every heap, internal cache reference and caller
mutation, the returned reference is distinct from the internal one and
writing any mutated dictionary through it leaves the internal cache cell
unchanged. -/
theorem spec_c10_variables_copy (h : HeapModel) (internal : Nat)
    (f : List (String × PValue) → List (String × PValue))
    (hlt : internal < h.cells.length) :
    (variablesProp h internal).2 ≠ internal ∧
    readRef
      (writeRef (variablesProp h internal).1 (variablesProp h internal).2
        (f (readRef (variablesProp h internal).1 (variablesProp h internal).2)))
      internal = readRef h internal := by
  constructor
  · intro e
    rw [show (variablesProp h internal).2 = h.cells.length from rfl] at e
    omega
  · simp only [variablesProp, allocRef, readRef, writeRef]
    rw [cellsGet_cellsSet_ne _ _ _ _ (Nat.ne_of_lt hlt),
      cellsGet_append_left _ _ _ hlt]

/-- Witness for C10 at the concrete heap `c10Heap`, with the caller
emptying the returned copy. -/
theorem spec_c10_variables_copy_witness :
    0 < c10Heap.cells.length ∧
    ((variablesProp c10Heap 0).2 ≠ 0 ∧
     readRef
       (writeRef (variablesProp c10Heap 0).1 (variablesProp c10Heap 0).2
         ((fun _ => []) (readRef (variablesProp c10Heap 0).1 (variablesProp c10Heap 0).2)))
       0 = readRef c10Heap 0) :=
  ⟨by decide, spec_c10_variables_copy c10Heap 0 (fun _ => []) (by decide)⟩

/-- C3: `_parse_value` applies its rules in order — (1) a stripped
payload with double quotes at both ends yields the unquoted content as a
string; (2) otherwise a payload lowercasing to `true`/`false` yields a
boolean; (3) otherwise a payload containing a point goes to the float
parse; (4) otherwise the integer parse is attempted; (5) a failed
numeric parse falls back to the stripped raw string — and concretely
`"hello"` parses to string `hello`, `TRUE` to boolean true, `12` to
integer 12, `12.5` to float 12.5, and `abc` to string `abc`. -/
theorem spec_c3_parse_rules (cs : List Char) :
    ((pyStrip cs).head? = some '"' → (pyStrip cs).getLast? = some '"' →
      parseValueL cs = PValue.str (String.mk (((pyStrip cs).drop 1).dropLast))) ∧
    (¬((pyStrip cs).head? = some '"' ∧ (pyStrip cs).getLast? = some '"') →
      (pyStrip cs).map Char.toLower = "true".data →
      parseValueL cs = PValue.bool true) ∧
    (¬((pyStrip cs).head? = some '"' ∧ (pyStrip cs).getLast? = some '"') →
      (pyStrip cs).map Char.toLower = "false".data →
      parseValueL cs = PValue.bool false) ∧
    (¬((pyStrip cs).head? = some '"' ∧ (pyStrip cs).getLast? = some '"') →
      ¬((pyStrip cs).map Char.toLower = "true".data) →
      ¬((pyStrip cs).map Char.toLower = "false".data) →
      '.' ∈ pyStrip cs →
      parseValueL cs =
        (match pyFloat (pyStrip cs) with
         | some q => PValue.float q
         | none => PValue.str (String.mk (pyStrip cs)))) ∧
    (¬((pyStrip cs).head? = some '"' ∧ (pyStrip cs).getLast? = some '"') →
      ¬((pyStrip cs).map Char.toLower = "true".data) →
      ¬((pyStrip cs).map Char.toLower = "false".data) →
      ¬('.' ∈ pyStrip cs) →
      parseValueL cs =
        (match pyInt (pyStrip cs) with
         | some n => PValue.int n
         | none => PValue.str (String.mk (pyStrip cs)))) ∧
    parse_value "\"hello\"" = PValue.str "hello" ∧
    parse_value "TRUE" = PValue.bool true ∧
    parse_value "12" = PValue.int 12 ∧
    parse_value "12.5" = PValue.float (25 / 2 : Rat) ∧
    parse_value "abc" = PValue.str "abc" := by
  refine ⟨?_, ?_, ?_, ?_, ?_, by decide, by decide, by decide, ?_, by decide⟩
  · intro h1 h2
    rw [parseValueL, parseStripped, if_pos ⟨h1, h2⟩]
  · intro hq ht
    rw [parseValueL, parseStripped, if_neg hq, if_pos ht]
  · intro hq ht
    rw [parseValueL, parseStripped, if_neg hq]
    by_cases h : (pyStrip cs).map Char.toLower = "true".data
    · rw [ht] at h
      exact absurd h.symm (by decide)
    · rw [if_neg h, if_pos ht]
  · intro hq ht hf hdot
    rw [parseValueL, parseStripped, if_neg hq, if_neg ht, if_neg hf, if_pos hdot]
  · intro hq ht hf hdot
    rw [parseValueL, parseStripped, if_neg hq, if_neg ht, if_neg hf, if_neg hdot]
  · rw [show parse_value "12.5" =
        PValue.float (((1 : Int) : Rat) * ((125 : Nat) : Rat) *
          ratPow10 ((0 : Int) - ((1 : Nat) : Int))) from rfl]
    norm_num [ratPow10]

/-- Witness for C3: rule instantiation at the payload `42`, whose
hypotheses (not quoted, not a boolean, no point) all hold. -/
theorem spec_c3_parse_rules_witness :
    (¬((pyStrip "42".data).head? = some '"' ∧ (pyStrip "42".data).getLast? = some '"') ∧
     ¬((pyStrip "42".data).map Char.toLower = "true".data) ∧
     ¬((pyStrip "42".data).map Char.toLower = "false".data) ∧
     ¬('.' ∈ pyStrip "42".data)) ∧
    parseValueL "42".data =
      (match pyInt (pyStrip "42".data) with
       | some n => PValue.int n
       | none => PValue.str (String.mk (pyStrip "42".data))) :=
  ⟨⟨by decide, by decide, by decide, by decide⟩,
   (spec_c3_parse_rules "42".data).2.2.2.2.1 (by decide) (by decide) (by decide) (by decide)⟩

/-- C4: a raw payload that parses to a boolean or an integer round-trips
through formatting — booleans format as `true`/`false` and re-parse to
the same boolean, integers format as their decimal text form and
re-parse to the same integer — and strings format quoted. -/
theorem spec_c4_roundtrip (cs : List Char) (b : Bool) (n : Int) (s : String) :
    (parseValueL cs = PValue.bool b →
      formatValueL (PValue.bool b) = (if b then "true".data else "false".data) ∧
      parseValueL (formatValueL (PValue.bool b)) = PValue.bool b) ∧
    (parseValueL cs = PValue.int n →
      formatValueL (PValue.int n) = intReprL n ∧
      parseValueL (formatValueL (PValue.int n)) = PValue.int n) ∧
    formatValueL (PValue.str s) = '"' :: (s.data ++ ['"']) := by
  refine ⟨fun _ => ⟨rfl, ?_⟩, fun _ => ⟨rfl, ?_⟩, rfl⟩
  · cases b <;> decide
  · exact parseValueL_intReprL n

/-- Witness for C4 at the payload `7`, which parses to integer 7. -/
theorem spec_c4_roundtrip_witness :
    parseValueL "7".data = PValue.int 7 ∧
    (formatValueL (PValue.int 7) = intReprL 7 ∧
     parseValueL (formatValueL (PValue.int 7)) = PValue.int 7) :=
  ⟨by decide, (spec_c4_roundtrip "7".data true 7 "x").2.1 (by decide)⟩

/-- C5: for every received line, a `GET:<name>,<raw>` response fulfills
the pending request keyed `GET:<name>` when one exists (its future is
resolved with the parsed value and the key is removed), while a
`DIFF:<name>,<raw>` line never completes any pending request — the
pending table and the future table are unchanged — yet still updates the
variable cache for the name and dispatches the parsed value to every
per-variable and global subscriber, whether or not a request for the
name is pending. -/
theorem spec_c5_get_diff (behavior : Nat → Option String) (st : ClientState)
    (name : String) (raw : List Char) (fid : Nat) (hn : ¬ ',' ∈ name.data) :
    (processResponse behavior
        ('D' :: 'I' :: 'F' :: 'F' :: ':' :: (name.data ++ ',' :: raw)) st).1.pending =
      st.pending ∧
    (processResponse behavior
        ('D' :: 'I' :: 'F' :: 'F' :: ':' :: (name.data ++ ',' :: raw)) st).1.futures =
      st.futures ∧
    lookupA (processResponse behavior
        ('D' :: 'I' :: 'F' :: 'F' :: ':' :: (name.data ++ ',' :: raw)) st).1.vars name =
      some (parseValueL raw) ∧
    (processResponse behavior
        ('D' :: 'I' :: 'F' :: 'F' :: ':' :: (name.data ++ ',' :: raw)) st).2 =
      (perVarCbs st name ++ st.globalCallbacks).map
        (fun c => ⟨c, name, parseValueL raw, (behavior c).isSome⟩) ∧
    ((st.pending.map Prod.fst).Nodup →
      lookupA st.pending ("GET:" ++ name) = some fid →
      lookupA st.futures fid = some FutureSt.pending →
      lookupA (processResponse behavior
          ('G' :: 'E' :: 'T' :: ':' :: (name.data ++ ',' :: raw)) st).1.futures fid =
        some (FutureSt.resolved (parseValueL raw)) ∧
      lookupA (processResponse behavior
          ('G' :: 'E' :: 'T' :: ':' :: (name.data ++ ',' :: raw)) st).1.pending
        ("GET:" ++ name) = none) := by
  rw [processResponse_DIFF, processResponse_GET, handleDiff_spec behavior st name raw hn]
  refine ⟨rfl, rfl, lookupA_setA_self _ _ _, rfl, ?_⟩
  intro hp hpend hfut
  exact handleGet_spec behavior st name raw fid hn hp hpend hfut

/-- Witness for C5 at the concrete state `c5State` (callbacks 0 and 1 on
`T`, global callback 2, future 4 pending under `GET:T`), with callback 1
raising, on the line payload `T,5`. -/
theorem spec_c5_get_diff_witness :
    ¬ ',' ∈ "T".data ∧
    ((processResponse (fun c => if c = 1 then some "boom" else none)
        ('D' :: 'I' :: 'F' :: 'F' :: ':' :: ("T".data ++ ',' :: "5".data)) c5State).1.pending =
      c5State.pending ∧
    (processResponse (fun c => if c = 1 then some "boom" else none)
        ('D' :: 'I' :: 'F' :: 'F' :: ':' :: ("T".data ++ ',' :: "5".data)) c5State).1.futures =
      c5State.futures ∧
    lookupA (processResponse (fun c => if c = 1 then some "boom" else none)
        ('D' :: 'I' :: 'F' :: 'F' :: ':' :: ("T".data ++ ',' :: "5".data)) c5State).1.vars "T" =
      some (parseValueL "5".data) ∧
    (processResponse (fun c => if c = 1 then some "boom" else none)
        ('D' :: 'I' :: 'F' :: 'F' :: ':' :: ("T".data ++ ',' :: "5".data)) c5State).2 =
      (perVarCbs c5State "T" ++ c5State.globalCallbacks).map
        (fun c => ⟨c, "T", parseValueL "5".data,
          ((fun c => if c = 1 then some "boom" else none) c).isSome⟩) ∧
    ((c5State.pending.map Prod.fst).Nodup →
      lookupA c5State.pending ("GET:" ++ "T") = some 4 →
      lookupA c5State.futures 4 = some FutureSt.pending →
      lookupA (processResponse (fun c => if c = 1 then some "boom" else none)
          ('G' :: 'E' :: 'T' :: ':' :: ("T".data ++ ',' :: "5".data)) c5State).1.futures 4 =
        some (FutureSt.resolved (parseValueL "5".data)) ∧
      lookupA (processResponse (fun c => if c = 1 then some "boom" else none)
          ('G' :: 'E' :: 'T' :: ':' :: ("T".data ++ ',' :: "5".data)) c5State).1.pending
        ("GET:" ++ "T") = none)) :=
  ⟨by decide,
   spec_c5_get_diff (fun c => if c = 1 then some "boom" else none) c5State "T" "5".data 4
     (by decide)⟩

/-- C9: a `LIST:<name>,<TYPE>*` line received while a list request is in
flight records the pair (name, TYPE) with the trailing star stripped
from the type; a bare name with no comma records type `UNKNOWN`; and
`list_variables` returns the entries accumulated over the full timeout
window in arrival order — concretely, a stream emitting `LIST:X,BOOL*`
then `LIST:Y,INT*` yields `[(X, BOOL), (Y, INT)]`. -/
theorem spec_c9_list (behavior : Nat → Option String) (st : ClientState) (fid : Nat)
    (payloads : List (List Char)) (n t : String)
    (hwn : ∀ c ∈ n.data, c.isWhitespace = false)
    (hwt : ∀ c ∈ t.data, c.isWhitespace = false)
    (hct : ¬ ',' ∈ t.data)
    (hcn : ¬ ',' ∈ n.data)
    (hnn : n.data ≠ [])
    (hstar : rstripStars t.data = t.data) :
    listEntry (n.data ++ ',' :: (t.data ++ ['*'])) = some (n, t) ∧
    listEntry n.data = some (n, "UNKNOWN") ∧
    (listVariablesRun behavior st fid
        (payloads.map (fun pl => 'L' :: 'I' :: 'S' :: 'T' :: ':' :: pl))).2 =
      payloads.filterMap listEntry ∧
    (listVariablesRun (fun _ => none) emptyClient 1
        ['L' :: 'I' :: 'S' :: 'T' :: ':' :: "X,BOOL*".data,
         'L' :: 'I' :: 'S' :: 'T' :: ':' :: "Y,INT*".data]).2 =
      [("X", "BOOL"), ("Y", "INT")] := by
  refine ⟨?_, ?_, ?_, by decide⟩
  · have hstrip : pyStrip (n.data ++ ',' :: (t.data ++ ['*'])) =
        n.data ++ ',' :: (t.data ++ ['*']) := by
      apply pyStrip_eq_self
      intro c hc
      rcases List.mem_append.mp hc with hc | hc
      · exact hwn c hc
      · rcases List.mem_cons.mp hc with rfl | hc
        · decide
        · rcases List.mem_append.mp hc with hc | hc
          · exact hwt c hc
          · rcases List.mem_singleton.mp hc with rfl
            decide
    have hsep : ¬ ',' ∈ (t.data ++ ['*']) := by
      intro hc
      rcases List.mem_append.mp hc with hc | hc
      · exact hct hc
      · rcases List.mem_singleton.mp hc with e
        exact absurd e (by decide)
    rw [listEntry]
    simp only [hstrip]
    rw [if_neg (by simp), splitLast_append_cons _ _ _ hsep]
    simp only [rstripStars_append_star, hstar, string_mk_data]
  · have hstrip : pyStrip n.data = n.data := pyStrip_eq_self _ hwn
    rw [listEntry]
    simp only [hstrip]
    rw [if_neg hnn, splitLast_eq_none _ _ hcn, string_mk_data]
  · rw [listVariablesRun]
    simp only [List.foldl_map]
    have hsome : (lookupA
        (setA st.pending "LIST" fid) "LIST").isSome = true := by
      rw [lookupA_setA_self]
      rfl
    obtain ⟨h1, _⟩ := listFold_acc behavior payloads
      { st with
        futures := setA st.futures fid FutureSt.pending
        pending := setA st.pending "LIST" fid
        listAcc := []
        sent := st.sent ++ ["LIST:"] } hsome
    simp only at h1
    rw [h1]
    simp

/-- Witness for C9 at name `X`, type `BOOL`, the empty payload stream
and the empty client. -/
theorem spec_c9_list_witness :
    ((∀ c ∈ "X".data, c.isWhitespace = false) ∧
     (∀ c ∈ "BOOL".data, c.isWhitespace = false) ∧
     ¬ ',' ∈ "BOOL".data ∧ ¬ ',' ∈ "X".data ∧ "X".data ≠ [] ∧
     rstripStars "BOOL".data = "BOOL".data) ∧
    (listEntry ("X".data ++ ',' :: ("BOOL".data ++ ['*'])) = some ("X", "BOOL") ∧
     listEntry "X".data = some ("X", "UNKNOWN") ∧
     (listVariablesRun (fun _ => none) emptyClient 2
         (([] : List (List Char)).map (fun pl => 'L' :: 'I' :: 'S' :: 'T' :: ':' :: pl))).2 =
       ([] : List (List Char)).filterMap listEntry ∧
     (listVariablesRun (fun _ => none) emptyClient 1
         ['L' :: 'I' :: 'S' :: 'T' :: ':' :: "X,BOOL*".data,
          'L' :: 'I' :: 'S' :: 'T' :: ':' :: "Y,INT*".data]).2 =
       [("X", "BOOL"), ("Y", "INT")]) :=
  ⟨⟨by decide, by decide, by decide, by decide, by decide, by decide⟩,
   spec_c9_list (fun _ => none) emptyClient 2 [] "X" "BOOL"
     (by decide) (by decide) (by decide) (by decide) (by decide) (by decide)⟩

end PlcComS
